import Mathlib

/-!
A shallow embedding of the `metrics` package (counters, gauges, windowed
histograms and the process-wide registry) and proofs of its specified
properties.

The registry state is explicit: Go's package-level maps become fields of a
`St` structure and every operation is a function on `St`.  Go maps are
embedded as association lists with first-binding-wins lookup and
replace-or-append assignment.  `uint64` counter arithmetic is `Nat` reduced
modulo `2 ^ 64`.  Gauge evaluators and batch initializers are closures in
the source; they are embedded as a small closure type (`GEval`, `GInit`)
whose cases cover the closures the package itself installs (constants,
histogram quantile readers, histogram merge) plus an `ext` case for
arbitrary caller-supplied functions acting on an abstract external world
`W`.  `float64` gauge values are embedded as `ℚ`, exact for every value the
package produces (casts of 64-bit integers and caller constants).

The bucketed/windowed HDR histogram implementation lives in an external
dependency whose code is not part of this repository, so its behaviour is
modelled from the spec (see the `Modelled from the spec:` doc comments):
a bucket set is a multiset of recorded values (unit resolution; the
significant-figures quantization only coarsens boundaries and is not
modelled), the window is the ring of the five most recently rotated bucket
sets, a merged snapshot concatenates the current set with every retained
slice, and the quantile projection returns the smallest recorded value
whose cumulative count fraction reaches the requested quantile.
-/

namespace Metrics

/-- Go-map lookup on an association list: the first binding for the key wins. -/
def lookupA {α : Type} (k : String) : List (String × α) → Option α
  | [] => none
  | (k', v) :: rest => if k = k' then some v else lookupA k rest

/-- Go-map assignment `m[k] = v`: replace the existing binding, else append one. -/
def insertA {α : Type} (k : String) (v : α) : List (String × α) → List (String × α)
  | [] => [(k, v)]
  | (k', v') :: rest => if k = k' then (k, v) :: rest else (k', v') :: insertA k v rest

/-- The keys of an association list. -/
def keysOf {α : Type} (l : List (String × α)) : List String :=
  l.map Prod.fst

/-- Go-map read with zero value: `m[k]` read off a map that may lack `k`. -/
def getDA {α : Type} (k : String) (l : List (String × α)) (d : α) : α :=
  (lookupA k l).getD d

/-- The modulus `2 ^ 64` of Go's `uint64` arithmetic. -/
def W64 : Nat := 2 ^ 64

/-- A recording error. Modelled from the spec: recording a value outside the
histogram's `[min,max]` range fails with a (non-fatal) RangeError. -/
inductive RecErr : Type where
  | rangeError
deriving DecidableEq, Repr

/-- Modelled from the spec: the state of one windowed histogram.  The external
HDR histogram dependency is not part of this repository, so a bucket set is
modelled at unit resolution as the list (multiset) of recorded values;
`current` is the bucket set being written to, `window` the ring of the most
recently rotated bucket sets (newest first), and `m` the merged snapshot
(`none` until the first merge), mirroring the `m *hdr.Histogram` field. -/
structure Histo : Type where
  lo : Int
  hi : Int
  current : List Int
  window : List (List Int)
  m : Option (List Int)
deriving DecidableEq, Repr

/-- The result of `hdr.NewWindowedHistogram(5, minValue, maxValue, sigfigs)` wrapped in a
`Histogram` as `NewHistogram` builds it: empty current set, empty window, no
merged snapshot yet.  The significant-figures precision only sets the bucket
resolution (spec §4.2 quantization policy) and is not modelled. -/
def mkHisto (lo hi : Int) (_sigfigs : Nat) : Histo :=
  ⟨lo, hi, [], [], none⟩

/-- Modelled from the spec: `RecordValue(v)` validates `v ∈ [min,max]`, fails
with a RangeError if not (the value is dropped), and otherwise increments the
current bucket set. -/
def RecordValue (h : Histo) (v : Int) : Except RecErr Unit × Histo :=
  if v < h.lo ∨ h.hi < v then
    (Except.error RecErr.rangeError, h)
  else
    (Except.ok (), { h with current := v :: h.current })

/-- Modelled from the spec: `rotate()` pushes the current bucket set onto the
window ring, keeps the five most recent slices, and starts a fresh current
bucket set. -/
def rotate (h : Histo) : Histo :=
  { h with window := (h.current :: h.window).take 5, current := [] }

/-- Modelled from the spec: the consolidated distribution `Merge()` returns —
the current bucket set combined with every retained window slice. -/
def mergedOf (h : Histo) : List Int :=
  h.current ++ h.window.foldr (fun a b => a ++ b) []

/-- Method `merge()`: stores the consolidated distribution in `m`. -/
def merge (h : Histo) : Histo :=
  { h with m := some (mergedOf h) }

/-- The number of recorded values that are `≤ v` in a bucket list. -/
def countLE (l : List Int) (v : Int) : Nat :=
  (l.filter (fun x => decide (x ≤ v))).length

/-- Does value `v` reach quantile `q` in `l`: is the cumulative count
fraction of values `≤ v` at least `q / 100`? -/
def satB (l : List Int) (q : ℚ) (v : Int) : Bool :=
  decide (q * (l.length : ℚ) ≤ 100 * (countLE l v : ℚ))

/-- The minimum of a list of integers, `0` when empty. -/
def minD : List Int → Int
  | [] => 0
  | x :: xs => xs.foldl min x

/-- The maximum of a list of integers, `0` when empty. -/
def maxD : List Int → Int
  | [] => 0
  | x :: xs => xs.foldl max x

/-- Modelled from the spec: `ValueAtQuantile(q)` of a merged distribution is
the smallest recorded bucket boundary such that the cumulative count fraction
is at least `q ⁄ 100`; `0` when nothing qualifies (empty distribution). -/
def ValueAtQuantile (l : List Int) (q : ℚ) : Int :=
  minD (l.filter (satB l q))

/-- Method `valueAt(q)`: the quantile gauge evaluator — `0` before any merge has
occurred, otherwise the quantile of the merged snapshot. -/
def valueAt (h : Histo) (q : ℚ) : ℚ :=
  match h.m with
  | none => 0
  | some l => (ValueAtQuantile l q : ℚ)

/-- A histogram-local operation other than merge (for stating what holds
before any merge has occurred). -/
inductive HOp : Type where
  | record (v : Int)
  | rotateOp

/-- Apply one histogram-local operation. -/
def applyHOp (h : Histo) : HOp → Histo
  | HOp.record v => (RecordValue h v).2
  | HOp.rotateOp => rotate h

/-- Apply a sequence of histogram-local operations. -/
def applyHOps (h : Histo) (ops : List HOp) : Histo :=
  ops.foldl applyHOp h

/-- A batch initializer closure: either a histogram's `merge` method (what
`NewHistogram` installs) or an arbitrary caller-supplied action on the
external world `W`. -/
inductive GInit (W : Type) : Type where
  | hmerge (name : String)
  | ext (f : W → W)

/-- A gauge evaluator closure: a captured constant (`Set`), a histogram
quantile reader `valueAt q` (what `NewHistogram` installs), or an arbitrary
caller-supplied function of the external world (`SetFunc`/`SetBatchFunc`). -/
inductive GEval (W : Type) : Type where
  | const (v : ℚ)
  | hvalueAt (name : String) (q : ℚ)
  | ext (f : W → ℚ)

/-- The registry state: the package-level maps `counters`, `gauges`, `inits`
and `histograms` of the source, made explicit.  All keys occurring in the
repository are strings, so batch keys are embedded as `String`. -/
structure St (W : Type) : Type where
  counters : List (String × Nat)
  gauges : List (String × GEval W)
  inits : List (String × GInit W)
  histograms : List (String × Histo)

/-- The state right after package initialization: four empty maps. -/
def emptySt (W : Type) : St W :=
  ⟨[], [], [], []⟩

/-- Method `Counter.AddN(delta)`: `counters[c] += delta` in `uint64` arithmetic;
reading a missing key yields the zero value and the assignment creates it. -/
def AddN {W : Type} (s : St W) (c : String) (delta : Nat) : St W :=
  { s with counters := insertA c ((getDA c s.counters 0 + delta) % W64) s.counters }

/-- Method `Counter.Add()`: increments the counter by one via `AddN(1)`. -/
def Add {W : Type} (s : St W) (c : String) : St W :=
  AddN s c 1

/-- Method `Gauge.Set(value)`: installs an evaluator returning the captured value. -/
def GaugeSet {W : Type} (s : St W) (g : String) (v : ℚ) : St W :=
  { s with gauges := insertA g (GEval.const v) s.gauges }

/-- Method `Gauge.SetFunc(f)`: installs `f` as the gauge's evaluator. -/
def SetFunc {W : Type} (s : St W) (g : String) (f : W → ℚ) : St W :=
  { s with gauges := insertA g (GEval.ext f) s.gauges }

/-- Method `Gauge.SetBatchFunc(key, init, f)`: installs `f` as the gauge's evaluator
and registers `init` under `key` only if `key` has no initializer yet. -/
def SetBatchFunc {W : Type} (s : St W) (g key : String) (i : GInit W) (f : GEval W) : St W :=
  { s with
    gauges := insertA g f s.gauges,
    inits :=
      match lookupA key s.inits with
      | some _ => s.inits
      | none => insertA key i s.inits }

/-- Function `Reset()`: replaces all four package-level maps with empty ones. -/
def Reset {W : Type} (_s : St W) : St W :=
  emptySt W

/-- Function `Counters()`: a snapshot (copy) of the current counter values. -/
def Counters {W : Type} (s : St W) : List (String × Nat) :=
  s.counters

/-- Evaluate one gauge evaluator closure against the registry and the
external world. -/
def evalG {W : Type} (s : St W) (w : W) : GEval W → ℚ
  | GEval.const v => v
  | GEval.hvalueAt n q =>
    match lookupA n s.histograms with
    | some h => valueAt h q
    | none => 0
  | GEval.ext f => f w

/-- Run one batch initializer closure: a histogram `merge` updates that
histogram's merged snapshot, an external action updates the world. -/
def runInit {W : Type} (sw : St W × W) : GInit W → St W × W
  | GInit.hmerge n =>
    ({ sw.1 with
       histograms :=
         match lookupA n sw.1.histograms with
         | some h => insertA n (merge h) sw.1.histograms
         | none => sw.1.histograms },
     sw.2)
  | GInit.ext f => (sw.1, f sw.2)

/-- Run every registered initializer once, in registration order. -/
def runInitsList {W : Type} (l : List (String × GInit W)) (sw : St W × W) : St W × W :=
  l.foldl (fun sw p => runInit sw p.2) sw

/-- The `for _, init := range inits { init() }` pass of `Gauges()`. -/
def runInitsR {W : Type} (s : St W) (w : W) : St W × W :=
  runInitsList s.inits (s, w)

/-- Function `Gauges()` with its side effects made explicit: first run every
registered batch initializer exactly once, then evaluate every gauge
evaluator against the resulting state; returns the post-snapshot state and
world together with the snapshot map. -/
def GaugesFull {W : Type} (s : St W) (w : W) : (St W × W) × List (String × ℚ) :=
  let sw := runInitsR s w
  (sw, sw.1.gauges.map (fun p => (p.1, evalG sw.1 sw.2 p.2)))

/-- Function `Gauges()`: the snapshot map of the current values of all gauges. -/
def Gauges {W : Type} (s : St W) (w : W) : List (String × ℚ) :=
  (GaugesFull s w).2

/-- Function `NewHistogram(name, minValue, maxValue, sigfigs)`: panics (embedded as
`Except.error`) if a histogram named `name` exists; otherwise registers a
fresh windowed histogram under `name` and installs the six quantile gauges
via `SetBatchFunc`, each passing `name` as the batch key and the histogram's
`merge` as the initializer. -/
def NewHistogram {W : Type} (s : St W) (name : String) (lo hi : Int) (sigfigs : Nat) :
    Except String (St W) :=
  match lookupA name s.histograms with
  | some _ => Except.error (name ++ " already exists")
  | none =>
    let s1 : St W := { s with histograms := insertA name (mkHisto lo hi sigfigs) s.histograms }
    let s2 := SetBatchFunc s1 (name ++ ".P50") name (GInit.hmerge name) (GEval.hvalueAt name 50)
    let s3 := SetBatchFunc s2 (name ++ ".P75") name (GInit.hmerge name) (GEval.hvalueAt name 75)
    let s4 := SetBatchFunc s3 (name ++ ".P90") name (GInit.hmerge name) (GEval.hvalueAt name 90)
    let s5 := SetBatchFunc s4 (name ++ ".P95") name (GInit.hmerge name) (GEval.hvalueAt name 95)
    let s6 := SetBatchFunc s5 (name ++ ".P99") name (GInit.hmerge name) (GEval.hvalueAt name 99)
    let s7 := SetBatchFunc s6 (name ++ ".P999") name (GInit.hmerge name) (GEval.hvalueAt name 99.9)
    Except.ok s7

/-- The logging initializer used to observe initializer invocations: it
prepends its batch key to the invocation log. -/
def logKey (k : String) : List String → List String :=
  fun w => k :: w

/-- Register one gauge under a batch key with the logging initializer for
that key (the instrumentation of the spec's dedup test). -/
def regBatch (s : St (List String)) (p : String × String) : St (List String) :=
  SetBatchFunc s p.1 p.2 (GInit.ext (logKey p.2)) (GEval.const 0)

/-- Register a whole list of (gauge name, batch key) pairs with logging
initializers, starting from the freshly initialized registry. -/
def regAll (regs : List (String × String)) : St (List String) :=
  regs.foldl regBatch (emptySt (List String))

/-- Apply a sequence of `AddN` operations given as (counter name, delta). -/
def addMany {W : Type} (s : St W) (ops : List (String × Nat)) : St W :=
  ops.foldl (fun s p => AddN s p.1 p.2) s

/-! ### Association-list lemmas -/

theorem lookupA_insertA {α : Type} (k k' : String) (v : α) (l : List (String × α)) :
    lookupA k (insertA k' v l) = if k = k' then some v else lookupA k l := by
  induction l with
  | nil =>
    simp only [insertA, lookupA]
  | cons p rest ih =>
    obtain ⟨k₀, v₀⟩ := p
    simp only [insertA]
    by_cases h1 : k' = k₀
    · subst h1
      by_cases h2 : k = k'
      · subst h2
        simp [lookupA]
      · simp [lookupA, h2]
    · simp only [if_neg h1, lookupA]
      by_cases h2 : k = k₀
      · subst h2
        have h3 : ¬ k = k' := fun hc => h1 hc.symm
        simp [h3]
      · simp [h2, ih]

theorem lookupA_none_iff {α : Type} (k : String) (l : List (String × α)) :
    lookupA k l = none ↔ k ∉ keysOf l := by
  induction l with
  | nil => simp [lookupA, keysOf]
  | cons p rest ih =>
    obtain ⟨k₀, v₀⟩ := p
    by_cases h : k = k₀
    · subst h
      simp [lookupA, keysOf]
    · simp [lookupA, keysOf, h, ih]

theorem insertA_of_not_mem {α : Type} (k : String) (v : α) (l : List (String × α))
    (h : lookupA k l = none) : insertA k v l = l ++ [(k, v)] := by
  induction l with
  | nil => simp [insertA]
  | cons p rest ih =>
    obtain ⟨k₀, v₀⟩ := p
    by_cases h1 : k = k₀
    · subst h1
      simp [lookupA] at h
    · simp only [lookupA, if_neg h1] at h
      simp [insertA, fun hc : k₀ = k => h1 hc.symm, ih h, h1]

theorem lookupA_map_pair {α β : Type} (k : String) (F : α → β) (l : List (String × α)) :
    lookupA k (l.map (fun p => (p.1, F p.2))) = (lookupA k l).map F := by
  induction l with
  | nil => simp [lookupA]
  | cons p rest ih =>
    obtain ⟨k₀, v₀⟩ := p
    by_cases h : k = k₀
    · subst h
      simp [lookupA]
    · simp [lookupA, h, ih]

theorem lookupA_map_self {α : Type} (k : String) (f : String → α) (ks : List String) :
    lookupA k (ks.map (fun k' => (k', f k'))) = if k ∈ ks then some (f k) else none := by
  induction ks with
  | nil => simp [lookupA]
  | cons k₀ rest ih =>
    by_cases h : k = k₀
    · subst h
      simp [lookupA]
    · simp [lookupA, h, ih, fun hc : k₀ = k => h hc.symm]

/-! ### Counter lemmas -/

theorem getDA_AddN_self {W : Type} (s : St W) (n : String) (d : Nat) :
    getDA n (Counters (AddN s n d)) 0 = (getDA n (Counters s) 0 + d) % W64 := by
  simp [Counters, AddN, getDA, lookupA_insertA]

/-- C4: `Add()` is `AddN(1)`, and `AddN` is additive: two successive `AddN`
calls with deltas `a` and `b` leave the counter's snapshot value at
`prior + a + b` in `uint64` arithmetic (i.e. modulo `2 ^ 64`). -/
theorem counter_add_addN_additive {W : Type} (s : St W) (n : String) (a b : Nat) :
    Add s n = AddN s n 1 ∧
    getDA n (Counters (AddN (AddN s n a) n b)) 0 =
      (getDA n (Counters s) 0 + a + b) % W64 := by
  refine ⟨rfl, ?_⟩
  rw [getDA_AddN_self, getDA_AddN_self, Nat.mod_add_mod, Nat.add_assoc]

/-- C5 (amended): a counter value is always non-negative, and an `AddN` call
never decreases it provided the `uint64` sum does not overflow
(`prior + delta < 2 ^ 64`). -/
theorem counter_nondecreasing_no_overflow {W : Type} (s : St W) (n : String) (d : Nat)
    (h : getDA n (Counters s) 0 + d < W64) :
    getDA n (Counters s) 0 ≤ getDA n (Counters (AddN s n d)) 0 ∧
      0 ≤ getDA n (Counters (AddN s n d)) 0 := by
  refine ⟨?_, Nat.zero_le _⟩
  rw [getDA_AddN_self, Nat.mod_eq_of_lt h]
  exact Nat.le_add_right _ _

/-- Witness for C5 (amended) at a concrete registry. -/
theorem counter_nondecreasing_no_overflow_witness :
    getDA "c" (Counters (emptySt Unit)) 0 ≤
      getDA "c" (Counters (AddN (emptySt Unit) "c" 5)) 0 ∧
    0 ≤ getDA "c" (Counters (AddN (emptySt Unit) "c" 5)) 0 :=
  counter_nondecreasing_no_overflow (emptySt Unit) "c" 5 (by decide)

/-- Counterexample to C5 as stated: with the counter at `2 ^ 64 - 1` (reached
by a single legal `AddN`), a further `AddN(1)` wraps the `uint64` value
around to `0`, a strict decrease of the snapshot value. -/
theorem counter_overflow_cex :
    getDA "c" (Counters (AddN (AddN (emptySt Unit) "c" (W64 - 1)) "c" 1)) 0 <
      getDA "c" (Counters (AddN (emptySt Unit) "c" (W64 - 1))) 0 := by
  rw [getDA_AddN_self, getDA_AddN_self]
  norm_num [getDA, Counters, emptySt, lookupA, W64]

theorem lookupA_AddN {W : Type} (s : St W) (n c : String) (d : Nat) :
    lookupA n (AddN s c d).counters =
      if n = c then some ((getDA c s.counters 0 + d) % W64) else lookupA n s.counters := by
  simp [AddN, lookupA_insertA]

theorem isSome_addMany {W : Type} (ops : List (String × Nat)) (s : St W) (n : String)
    (h : (lookupA n s.counters).isSome = true) :
    (lookupA n (addMany s ops).counters).isSome = true := by
  induction ops generalizing s with
  | nil => exact h
  | cons p rest ih =>
    refine ih (AddN s p.1 p.2) ?_
    rw [lookupA_AddN]
    by_cases hc : n = p.1
    · simp [hc]
    · simpa [hc] using h

theorem lookupA_addMany_untouched {W : Type} (ops : List (String × Nat)) (s : St W)
    (n : String) (h : ∀ p ∈ ops, p.1 ≠ n) :
    lookupA n (addMany s ops).counters = lookupA n s.counters := by
  induction ops generalizing s with
  | nil => rfl
  | cons p rest ih =>
    have hp : p.1 ≠ n := h p (List.mem_cons_self p rest)
    have hn : n ≠ p.1 := fun hc => hp hc.symm
    rw [addMany, List.foldl_cons]
    rw [show (rest.foldl (fun s q => AddN s q.1 q.2) (AddN s p.1 p.2)) =
          addMany (AddN s p.1 p.2) rest from rfl]
    rw [ih (AddN s p.1 p.2) (fun q hq => h q (List.mem_cons_of_mem p hq)), lookupA_AddN,
      if_neg hn]

/-- C10: `AddN(0)` on a never-used counter name creates the counter: the name
maps to `0` in the snapshot, stays present under any further `AddN` traffic,
and stays at `0` as long as no operation targets it. -/
theorem addN_zero_creates {W : Type} (s : St W) (n : String)
    (h : lookupA n s.counters = none) :
    lookupA n (Counters (AddN s n 0)) = some 0 ∧
    (∀ ops : List (String × Nat),
      (lookupA n (Counters (addMany (AddN s n 0) ops))).isSome = true) ∧
    (∀ ops : List (String × Nat), (∀ p ∈ ops, p.1 ≠ n) →
      lookupA n (Counters (addMany (AddN s n 0) ops)) = some 0) := by
  have h0 : lookupA n (AddN s n 0).counters = some 0 := by
    rw [lookupA_AddN, if_pos rfl]
    simp [getDA, h, W64]
  refine ⟨h0, ?_, ?_⟩
  · intro ops
    exact isSome_addMany ops _ n (by simp [Counters, h0])
  · intro ops hops
    rw [Counters, lookupA_addMany_untouched ops _ n hops]
    exact h0

/-- Witness for C10 at a concrete registry and a concrete tail of traffic. -/
theorem addN_zero_creates_witness :
    lookupA "c" (Counters (AddN (emptySt Unit) "c" 0)) = some 0 ∧
    (lookupA "c" (Counters (addMany (AddN (emptySt Unit) "c" 0) [("d", 3)]))).isSome = true ∧
    lookupA "c" (Counters (addMany (AddN (emptySt Unit) "c" 0) [("d", 3)])) = some 0 :=
  ⟨(addN_zero_creates (emptySt Unit) "c" rfl).1,
   (addN_zero_creates (emptySt Unit) "c" rfl).2.1 [("d", 3)],
   (addN_zero_creates (emptySt Unit) "c" rfl).2.2 [("d", 3)] (by decide)⟩

/-! ### Batch-initializer lemmas -/

/-- C6: the first initializer registered for a batch key wins: a second
`SetBatchFunc` on the same key leaves the first initializer registered while
still installing the second call's evaluator for its gauge. -/
theorem first_initializer_wins {W : Type} (s : St W) (g1 g2 key : String)
    (i1 i2 : GInit W) (f1 f2 : GEval W) (hk : lookupA key s.inits = none) :
    lookupA key (SetBatchFunc (SetBatchFunc s g1 key i1 f1) g2 key i2 f2).inits = some i1 ∧
    lookupA g2 (SetBatchFunc (SetBatchFunc s g1 key i1 f1) g2 key i2 f2).gauges = some f2 := by
  constructor
  · simp [SetBatchFunc, hk, lookupA_insertA]
  · simp [SetBatchFunc, lookupA_insertA]

/-- Witness for C6 at a concrete registry. -/
theorem first_initializer_wins_witness :
    lookupA "k"
        (SetBatchFunc (SetBatchFunc (emptySt Unit) "g1" "k" (GInit.hmerge "a") (GEval.const 1))
          "g2" "k" (GInit.hmerge "b") (GEval.const 2)).inits = some (GInit.hmerge "a") ∧
    lookupA "g2"
        (SetBatchFunc (SetBatchFunc (emptySt Unit) "g1" "k" (GInit.hmerge "a") (GEval.const 1))
          "g2" "k" (GInit.hmerge "b") (GEval.const 2)).gauges = some (GEval.const 2) :=
  first_initializer_wins (emptySt Unit) "g1" "g2" "k" (GInit.hmerge "a") (GInit.hmerge "b")
    (GEval.const 1) (GEval.const 2) rfl

/-- C7: `Reset` clears all namespaces and all batch initializers: the counter
snapshot and the gauge snapshot taken after a `Reset` are empty, and the
initializer pass of a subsequent `Gauges()` call invokes nothing (it leaves
the registry and the external world untouched). -/
theorem reset_clears {W : Type} (s : St W) (w : W) :
    Counters (Reset s) = [] ∧ Gauges (Reset s) w = [] ∧
      runInitsR (Reset s) w = (Reset s, w) :=
  ⟨rfl, rfl, rfl⟩

/-! ### `NewHistogram` -/

theorem append_ne_of_ne (n a b : String) (h : a ≠ b) : n ++ a ≠ n ++ b := by
  intro hc
  apply h
  have hd : n.data ++ a.data = n.data ++ b.data := by
    have := congrArg String.data hc
    simpa [String.data_append] using this
  exact String.ext (List.append_cancel_left hd)

/-- C2: `NewHistogram` fails with `name ++ " already exists"` when a
histogram named `name` is already registered; otherwise it succeeds,
registers a fresh windowed histogram under `name`, installs exactly the six
quantile gauges `<name>.P50 … <name>.P999` (every other gauge binding is
untouched), occupies batch key `name` — with the histogram's `merge` as the
initializer whenever the key was previously free — and leaves the counters
untouched. -/
theorem NewHistogram_spec {W : Type} (s : St W) (name : String) (lo hi : Int) (sf : Nat) :
    ((lookupA name s.histograms).isSome = true →
      NewHistogram s name lo hi sf = Except.error (name ++ " already exists")) ∧
    (lookupA name s.histograms = none →
      ∃ s' : St W, NewHistogram s name lo hi sf = Except.ok s' ∧
        lookupA name s'.histograms = some (mkHisto lo hi sf) ∧
        lookupA name s'.inits = some ((lookupA name s.inits).getD (GInit.hmerge name)) ∧
        lookupA (name ++ ".P50") s'.gauges = some (GEval.hvalueAt name 50) ∧
        lookupA (name ++ ".P75") s'.gauges = some (GEval.hvalueAt name 75) ∧
        lookupA (name ++ ".P90") s'.gauges = some (GEval.hvalueAt name 90) ∧
        lookupA (name ++ ".P95") s'.gauges = some (GEval.hvalueAt name 95) ∧
        lookupA (name ++ ".P99") s'.gauges = some (GEval.hvalueAt name 99) ∧
        lookupA (name ++ ".P999") s'.gauges = some (GEval.hvalueAt name 99.9) ∧
        (∀ n : String,
          n ∉ [name ++ ".P50", name ++ ".P75", name ++ ".P90", name ++ ".P95",
               name ++ ".P99", name ++ ".P999"] →
          lookupA n s'.gauges = lookupA n s.gauges) ∧
        s'.counters = s.counters) := by
  constructor
  · intro hs
    obtain ⟨h, hx⟩ := Option.isSome_iff_exists.mp hs
    simp [NewHistogram, hx]
  · intro hnone
    have hg : ∀ a b : String, a ≠ b → name ++ a ≠ name ++ b := append_ne_of_ne name
    simp only [NewHistogram, hnone]
    refine ⟨_, rfl, ?_, ?_, ?_, ?_, ?_, ?_, ?_, ?_, ?_, ?_⟩
    · simp [SetBatchFunc, lookupA_insertA]
    · simp only [SetBatchFunc]
      rcases hi0 : lookupA name s.inits with _ | i0 <;>
        simp [hi0, lookupA_insertA]
    · simp [SetBatchFunc, lookupA_insertA,
        hg _ _ (by decide : (".P50" : String) ≠ ".P999"),
        hg _ _ (by decide : (".P50" : String) ≠ ".P99"),
        hg _ _ (by decide : (".P50" : String) ≠ ".P95"),
        hg _ _ (by decide : (".P50" : String) ≠ ".P90"),
        hg _ _ (by decide : (".P50" : String) ≠ ".P75")]
    · simp [SetBatchFunc, lookupA_insertA,
        hg _ _ (by decide : (".P75" : String) ≠ ".P999"),
        hg _ _ (by decide : (".P75" : String) ≠ ".P99"),
        hg _ _ (by decide : (".P75" : String) ≠ ".P95"),
        hg _ _ (by decide : (".P75" : String) ≠ ".P90")]
    · simp [SetBatchFunc, lookupA_insertA,
        hg _ _ (by decide : (".P90" : String) ≠ ".P999"),
        hg _ _ (by decide : (".P90" : String) ≠ ".P99"),
        hg _ _ (by decide : (".P90" : String) ≠ ".P95")]
    · simp [SetBatchFunc, lookupA_insertA,
        hg _ _ (by decide : (".P95" : String) ≠ ".P999"),
        hg _ _ (by decide : (".P95" : String) ≠ ".P99")]
    · simp [SetBatchFunc, lookupA_insertA,
        hg _ _ (by decide : (".P99" : String) ≠ ".P999")]
    · simp [SetBatchFunc, lookupA_insertA]
    · intro n hn
      simp only [List.mem_cons, List.not_mem_nil, or_false, not_or] at hn
      obtain ⟨h1, h2, h3, h4, h5, h6⟩ := hn
      simp [SetBatchFunc, lookupA_insertA, h1, h2, h3, h4, h5, h6]
    · simp [SetBatchFunc]

/-- Witness for C2: the duplicate case on a one-histogram registry and the
success case on the fresh registry. -/
theorem NewHistogram_spec_witness :
    (NewHistogram (St.mk [] [] [] [("h", mkHisto 1 1000 3)] : St Unit) "h" 1 1000 3 =
      Except.error ("h" ++ " already exists")) ∧
    (∃ s' : St Unit, NewHistogram (emptySt Unit) "h" 1 1000 3 = Except.ok s' ∧
      lookupA "h" s'.histograms = some (mkHisto 1 1000 3) ∧
      lookupA "h" s'.inits = some ((lookupA "h" (emptySt Unit).inits).getD (GInit.hmerge "h")) ∧
      lookupA ("h" ++ ".P50") s'.gauges = some (GEval.hvalueAt "h" 50) ∧
      lookupA ("h" ++ ".P75") s'.gauges = some (GEval.hvalueAt "h" 75) ∧
      lookupA ("h" ++ ".P90") s'.gauges = some (GEval.hvalueAt "h" 90) ∧
      lookupA ("h" ++ ".P95") s'.gauges = some (GEval.hvalueAt "h" 95) ∧
      lookupA ("h" ++ ".P99") s'.gauges = some (GEval.hvalueAt "h" 99) ∧
      lookupA ("h" ++ ".P999") s'.gauges = some (GEval.hvalueAt "h" 99.9) ∧
      (∀ n : String,
        n ∉ [("h" : String) ++ ".P50", "h" ++ ".P75", "h" ++ ".P90", "h" ++ ".P95",
             "h" ++ ".P99", "h" ++ ".P999"] →
        lookupA n s'.gauges = lookupA n (emptySt Unit).gauges) ∧
      s'.counters = (emptySt Unit).counters) :=
  ⟨(NewHistogram_spec (St.mk [] [] [] [("h", mkHisto 1 1000 3)]) "h" 1 1000 3).1 rfl,
   (NewHistogram_spec (emptySt Unit) "h" 1 1000 3).2 rfl⟩

/-! ### The gauge snapshot pass -/

theorem runInit_gauges {W : Type} (sw : St W × W) (i : GInit W) :
    (runInit sw i).1.gauges = sw.1.gauges := by
  cases i <;> rfl

theorem runInitsList_gauges {W : Type} (l : List (String × GInit W)) (sw : St W × W) :
    (runInitsList l sw).1.gauges = sw.1.gauges := by
  induction l generalizing sw with
  | nil => rfl
  | cons p rest ih =>
    rw [runInitsList, List.foldl_cons]
    rw [show rest.foldl (fun sw p => runInit sw p.2) (runInit sw p.2) =
          runInitsList rest (runInit sw p.2) from rfl]
    rw [ih, runInit_gauges]

theorem runInitsList_log (ks : List String) (s : St (List String)) (w : List String) :
    runInitsList (ks.map (fun k => (k, GInit.ext (logKey k)))) (s, w) = (s, ks.reverse ++ w) := by
  induction ks generalizing w with
  | nil => simp [runInitsList]
  | cons k rest ih =>
    rw [List.map_cons, runInitsList, List.foldl_cons]
    rw [show (rest.map (fun k => (k, GInit.ext (logKey k)))).foldl
          (fun sw p => runInit sw p.2) (runInit (s, w) (GInit.ext (logKey k))) =
          runInitsList (rest.map (fun k => (k, GInit.ext (logKey k))))
            (runInit (s, w) (GInit.ext (logKey k))) from rfl]
    rw [show runInit (s, w) (GInit.ext (logKey k)) = (s, k :: w) from rfl, ih]
    simp

theorem nodup_append_singleton {α : Type} (l : List α) (a : α) (h1 : l.Nodup) (h2 : a ∉ l) :
    (l ++ [a]).Nodup := by
  induction l with
  | nil => simp
  | cons x xs ih =>
    rcases List.nodup_cons.mp h1 with ⟨hx, hxs⟩
    have ha : a ∉ xs := fun hc => h2 (List.mem_cons_of_mem x hc)
    refine List.nodup_cons.mpr ⟨?_, ih hxs ha⟩
    intro hc
    rcases List.mem_append.mp hc with h | h
    · exact hx h
    · exact h2 ((List.mem_singleton.mp h) ▸ List.mem_cons_self x xs)

theorem regFold_inits (regs : List (String × String)) (s₀ : St (List String))
    (ks₀ : List String) (hnd : ks₀.Nodup)
    (h₀ : s₀.inits = ks₀.map (fun k => (k, GInit.ext (logKey k)))) :
    ∃ ks : List String, ks.Nodup ∧ (∀ k, k ∈ ks ↔ k ∈ ks₀ ∨ k ∈ regs.map Prod.snd) ∧
      (regs.foldl regBatch s₀).inits = ks.map (fun k => (k, GInit.ext (logKey k))) := by
  induction regs generalizing s₀ ks₀ with
  | nil =>
    exact ⟨ks₀, hnd, fun k => by simp, h₀⟩
  | cons p rest ih =>
    obtain ⟨g, key⟩ := p
    rw [List.foldl_cons]
    by_cases hk : key ∈ ks₀
    · have hl : lookupA key s₀.inits = some (GInit.ext (logKey key)) := by
        rw [h₀, lookupA_map_self, if_pos hk]
      have hinits : (regBatch s₀ (g, key)).inits = s₀.inits := by
        simp [regBatch, SetBatchFunc, hl]
      obtain ⟨ks, h1, h2, h3⟩ := ih (regBatch s₀ (g, key)) ks₀ hnd (hinits.trans h₀)
      refine ⟨ks, h1, fun k => ?_, h3⟩
      rw [h2 k]
      simp only [List.map_cons, List.mem_cons]
      constructor
      · rintro (h | h)
        · exact Or.inl h
        · exact Or.inr (Or.inr h)
      · rintro (h | h | h)
        · exact Or.inl h
        · refine Or.inl ?_
          rw [h]
          exact hk
        · exact Or.inr h
    · have hl : lookupA key s₀.inits = none := by
        rw [h₀, lookupA_map_self, if_neg hk]
      have hinits : (regBatch s₀ (g, key)).inits =
          (ks₀ ++ [key]).map (fun k => (k, GInit.ext (logKey k))) := by
        simp only [regBatch, SetBatchFunc, hl]
        rw [h₀, insertA_of_not_mem _ _ _ (by rw [h₀] at hl; exact hl)]
        simp
      obtain ⟨ks, h1, h2, h3⟩ := ih (regBatch s₀ (g, key)) (ks₀ ++ [key])
        (nodup_append_singleton ks₀ key hnd hk) hinits
      refine ⟨ks, h1, fun k => ?_, h3⟩
      rw [h2 k]
      simp only [List.mem_append, List.mem_singleton, List.map_cons, List.mem_cons]
      tauto

/-- C1: (a) with every batch registration instrumented to log its key, one
gauge snapshot invokes the initializer of each registered batch key exactly
once, no matter how many gauges were registered under that key; (b) the
snapshot value of a gauge is exactly its currently-installed evaluator
applied after the initializer pass has run. -/
theorem gauges_snapshot_spec {W : Type} (s : St W) (w : W) :
    (∀ (regs : List (String × String)) (k : String),
      ((GaugesFull (regAll regs) []).1.2).count k =
        if k ∈ regs.map Prod.snd then 1 else 0) ∧
    (∀ (n : String) (e : GEval W), lookupA n s.gauges = some e →
      lookupA n (Gauges s w) =
        some (evalG (runInitsR s w).1 (runInitsR s w).2 e)) := by
  constructor
  · intro regs k
    obtain ⟨ks, hnd, hmem, hshape⟩ := regFold_inits regs (emptySt (List String)) []
      List.nodup_nil rfl
    have hrun : runInitsR (regAll regs) [] = (regAll regs, ks.reverse ++ []) := by
      rw [runInitsR, show (regAll regs).inits = ks.map (fun k => (k, GInit.ext (logKey k)))
        from hshape, runInitsList_log]
    rw [show (GaugesFull (regAll regs) []).1.2 = (runInitsR (regAll regs) []).2 from rfl, hrun]
    simp only [List.append_nil, List.count_reverse]
    by_cases hk : k ∈ regs.map Prod.snd
    · rw [if_pos hk]
      exact List.count_eq_one_of_mem hnd ((hmem k).mpr (Or.inr hk))
    · rw [if_neg hk]
      refine List.count_eq_zero.mpr (fun hc => ?_)
      rcases (hmem k).mp hc with h | h
      · simp at h
      · exact hk h
  · intro n e he
    rw [Gauges, GaugesFull]
    simp only
    rw [lookupA_map_pair, show (runInitsR s w).1.gauges = s.gauges from
      runInitsList_gauges s.inits (s, w), he, Option.map_some']

/-- Witness for C1: two gauges sharing batch key `"k"` produce exactly one
logged invocation, and a concrete gauge's snapshot value is its evaluator's
result. -/
theorem gauges_snapshot_spec_witness :
    ((GaugesFull (regAll [("g1", "k"), ("g2", "k")]) []).1.2).count "k" =
      (if "k" ∈ ([("g1", "k"), ("g2", "k")] : List (String × String)).map Prod.snd
        then 1 else 0) ∧
    lookupA "g" (Gauges (GaugeSet (emptySt Unit) "g" 7) ()) =
      some (evalG (runInitsR (GaugeSet (emptySt Unit) "g" 7) ()).1
        (runInitsR (GaugeSet (emptySt Unit) "g" 7) ()).2 (GEval.const 7)) :=
  ⟨(gauges_snapshot_spec (emptySt Unit) ()).1 [("g1", "k"), ("g2", "k")] "k",
   (gauges_snapshot_spec (GaugeSet (emptySt Unit) "g" 7) ()).2 "g" (GEval.const 7)
     (by simp [GaugeSet, lookupA_insertA])⟩

/-! ### Minimum/maximum folds -/

theorem foldl_min_le_init (xs : List Int) (x : Int) : xs.foldl min x ≤ x := by
  induction xs generalizing x with
  | nil => exact le_refl x
  | cons y ys ih =>
    rw [List.foldl_cons]
    exact le_trans (ih (min x y)) (min_le_left x y)

theorem foldl_min_le_mem (xs : List Int) (x y : Int) (h : y ∈ xs) : xs.foldl min x ≤ y := by
  induction xs generalizing x with
  | nil => cases h
  | cons z zs ih =>
    rw [List.foldl_cons]
    rcases List.mem_cons.mp h with rfl | hz
    · exact le_trans (foldl_min_le_init zs (min x y)) (min_le_right x y)
    · exact ih (min x z) hz

theorem foldl_min_mem (xs : List Int) (x : Int) : xs.foldl min x = x ∨ xs.foldl min x ∈ xs := by
  induction xs generalizing x with
  | nil => exact Or.inl rfl
  | cons y ys ih =>
    rw [List.foldl_cons]
    rcases ih (min x y) with h | h
    · rcases min_choice x y with hxy | hxy
      · exact Or.inl (h.trans hxy)
      · exact Or.inr (List.mem_cons.mpr (Or.inl (h.trans hxy)))
    · exact Or.inr (List.mem_cons.mpr (Or.inr h))

theorem minD_mem (l : List Int) (h : l ≠ []) : minD l ∈ l := by
  cases l with
  | nil => exact absurd rfl h
  | cons x xs =>
    rcases foldl_min_mem xs x with h' | h'
    · exact List.mem_cons.mpr (Or.inl h')
    · exact List.mem_cons.mpr (Or.inr h')

theorem minD_le (l : List Int) (y : Int) (h : y ∈ l) : minD l ≤ y := by
  cases l with
  | nil => cases h
  | cons x xs =>
    rcases List.mem_cons.mp h with rfl | hx
    · exact foldl_min_le_init xs y
    · exact foldl_min_le_mem xs x y hx

theorem init_le_foldl_max (xs : List Int) (x : Int) : x ≤ xs.foldl max x := by
  induction xs generalizing x with
  | nil => exact le_refl x
  | cons y ys ih =>
    rw [List.foldl_cons]
    exact le_trans (le_max_left x y) (ih (max x y))

theorem mem_le_foldl_max (xs : List Int) (x y : Int) (h : y ∈ xs) : y ≤ xs.foldl max x := by
  induction xs generalizing x with
  | nil => cases h
  | cons z zs ih =>
    rw [List.foldl_cons]
    rcases List.mem_cons.mp h with rfl | hz
    · exact le_trans (le_max_right x y) (init_le_foldl_max zs (max x y))
    · exact ih (max x z) hz

theorem foldl_max_mem (xs : List Int) (x : Int) : xs.foldl max x = x ∨ xs.foldl max x ∈ xs := by
  induction xs generalizing x with
  | nil => exact Or.inl rfl
  | cons y ys ih =>
    rw [List.foldl_cons]
    rcases ih (max x y) with h | h
    · rcases max_choice x y with hxy | hxy
      · exact Or.inl (h.trans hxy)
      · exact Or.inr (List.mem_cons.mpr (Or.inl (h.trans hxy)))
    · exact Or.inr (List.mem_cons.mpr (Or.inr h))

theorem maxD_mem (l : List Int) (h : l ≠ []) : maxD l ∈ l := by
  cases l with
  | nil => exact absurd rfl h
  | cons x xs =>
    rcases foldl_max_mem xs x with h' | h'
    · exact List.mem_cons.mpr (Or.inl h')
    · exact List.mem_cons.mpr (Or.inr h')

theorem le_maxD (l : List Int) (y : Int) (h : y ∈ l) : y ≤ maxD l := by
  cases l with
  | nil => cases h
  | cons x xs =>
    rcases List.mem_cons.mp h with rfl | hx
    · exact init_le_foldl_max xs y
    · exact mem_le_foldl_max xs x y hx

/-! ### Quantile lemmas -/

theorem countLE_maxD (l : List Int) : countLE l (maxD l) = l.length := by
  rw [countLE, List.filter_eq_self.mpr]
  intro a ha
  exact decide_eq_true (le_maxD l a ha)

theorem satB_of_le (l : List Int) (q1 q2 : ℚ) (v : Int) (h : q1 ≤ q2)
    (hs : satB l q2 v = true) : satB l q1 v = true := by
  simp only [satB, decide_eq_true_eq] at hs ⊢
  calc q1 * (l.length : ℚ) ≤ q2 * (l.length : ℚ) :=
        mul_le_mul_of_nonneg_right h (by positivity)
    _ ≤ 100 * (countLE l v : ℚ) := hs

theorem satB_maxD (l : List Int) (q : ℚ) (hq : q ≤ 100) : satB l q (maxD l) = true := by
  simp only [satB, decide_eq_true_eq, countLE_maxD]
  exact mul_le_mul_of_nonneg_right hq (by positivity)

theorem filter_satB_ne_nil (l : List Int) (q : ℚ) (hq : q ≤ 100) (hl : l ≠ []) :
    l.filter (satB l q) ≠ [] := by
  intro hc
  have hmem : maxD l ∈ l.filter (satB l q) :=
    List.mem_filter.mpr ⟨maxD_mem l hl, satB_maxD l q hq⟩
  rw [hc] at hmem
  cases hmem

theorem ValueAtQuantile_mono (l : List Int) (q1 q2 : ℚ) (h12 : q1 ≤ q2) (h100 : q2 ≤ 100) :
    ValueAtQuantile l q1 ≤ ValueAtQuantile l q2 := by
  by_cases hl : l = []
  · subst hl
    exact le_refl _
  · have h2ne := filter_satB_ne_nil l q2 h100 hl
    have hmem2 := minD_mem _ h2ne
    rcases List.mem_filter.mp hmem2 with ⟨hmeml, hsat2⟩
    exact minD_le _ _ (List.mem_filter.mpr ⟨hmeml, satB_of_le l q1 q2 _ h12 hsat2⟩)

/-! ### Histogram state lemmas -/

theorem applyHOp_m (h : Histo) (op : HOp) : (applyHOp h op).m = h.m := by
  cases op with
  | record v =>
    rw [applyHOp, RecordValue]
    split <;> rfl
  | rotateOp => rfl

theorem applyHOps_m (h : Histo) (ops : List HOp) : (applyHOps h ops).m = h.m := by
  induction ops generalizing h with
  | nil => rfl
  | cons op rest ih =>
    rw [applyHOps, List.foldl_cons]
    rw [show rest.foldl applyHOp (applyHOp h op) = applyHOps (applyHOp h op) rest from rfl]
    rw [ih, applyHOp_m]

/-- C3: recording a value outside `[min,max]` returns a RangeError and leaves
the histogram — hence its merged distribution and every quantile gauge —
unchanged; recording a value inside the range succeeds and modifies only the
current bucket set. -/
theorem RecordValue_spec (h : Histo) (v : Int) :
    (v < h.lo ∨ h.hi < v →
      (RecordValue h v).1 = Except.error RecErr.rangeError ∧
      (RecordValue h v).2 = h ∧
      (∀ q : ℚ, valueAt (merge (RecordValue h v).2) q = valueAt (merge h) q)) ∧
    (h.lo ≤ v → v ≤ h.hi →
      (RecordValue h v).1 = Except.ok () ∧
      (RecordValue h v).2.current = v :: h.current ∧
      (RecordValue h v).2.window = h.window ∧
      (RecordValue h v).2.m = h.m ∧
      (RecordValue h v).2.lo = h.lo ∧
      (RecordValue h v).2.hi = h.hi) := by
  constructor
  · intro hout
    have hr : RecordValue h v = (Except.error RecErr.rangeError, h) := by
      rw [RecordValue, if_pos hout]
    rw [hr]
    exact ⟨rfl, rfl, fun q => rfl⟩
  · intro hlo hhi
    have hin : ¬ (v < h.lo ∨ h.hi < v) := by
      push_neg
      exact ⟨hlo, hhi⟩
    have hr : RecordValue h v = (Except.ok (), { h with current := v :: h.current }) := by
      rw [RecordValue, if_neg hin]
    rw [hr]
    exact ⟨rfl, rfl, rfl, rfl, rfl, rfl⟩

/-- Witness for C3: on a `[1,1000]` histogram, recording `2000` fails with a
RangeError and changes nothing, while recording `5` succeeds and only
prepends to the current bucket set. -/
theorem RecordValue_spec_witness :
    ((RecordValue (Histo.mk 1 1000 [] [] none) 2000).1 = Except.error RecErr.rangeError ∧
      (RecordValue (Histo.mk 1 1000 [] [] none) 2000).2 = Histo.mk 1 1000 [] [] none ∧
      valueAt (merge (RecordValue (Histo.mk 1 1000 [] [] none) 2000).2) 50 =
        valueAt (merge (Histo.mk 1 1000 [] [] none)) 50) ∧
    ((RecordValue (Histo.mk 1 1000 [] [] none) 5).1 = Except.ok () ∧
      (RecordValue (Histo.mk 1 1000 [] [] none) 5).2.current = [5] ∧
      (RecordValue (Histo.mk 1 1000 [] [] none) 5).2.window = [] ∧
      (RecordValue (Histo.mk 1 1000 [] [] none) 5).2.m = none) := by
  have hout := (RecordValue_spec (Histo.mk 1 1000 [] [] none) 2000).1
    (Or.inr (by decide))
  have hin := (RecordValue_spec (Histo.mk 1 1000 [] [] none) 5).2
    (by decide) (by decide)
  exact ⟨⟨hout.1, hout.2.1, hout.2.2 50⟩, hin.1, hin.2.1, hin.2.2.1, hin.2.2.2.1⟩

/-- C8: once a merge has occurred, the quantile projection is monotone
non-decreasing across the six published quantiles. -/
theorem valueAt_chain (h : Histo) (l : List Int) (hm : h.m = some l) :
    valueAt h 50 ≤ valueAt h 75 ∧ valueAt h 75 ≤ valueAt h 90 ∧
    valueAt h 90 ≤ valueAt h 95 ∧ valueAt h 95 ≤ valueAt h 99 ∧
    valueAt h 99 ≤ valueAt h 99.9 := by
  simp only [valueAt, hm]
  refine ⟨?_, ?_, ?_, ?_, ?_⟩ <;>
    exact Int.cast_le.mpr (ValueAtQuantile_mono l _ _ (by norm_num) (by norm_num))

/-- Witness for C8 at a concrete merged histogram. -/
theorem valueAt_chain_witness :
    valueAt (Histo.mk 1 1000 [3, 2, 1] [] (some [3, 2, 1])) 50 ≤
      valueAt (Histo.mk 1 1000 [3, 2, 1] [] (some [3, 2, 1])) 75 ∧
    valueAt (Histo.mk 1 1000 [3, 2, 1] [] (some [3, 2, 1])) 75 ≤
      valueAt (Histo.mk 1 1000 [3, 2, 1] [] (some [3, 2, 1])) 90 ∧
    valueAt (Histo.mk 1 1000 [3, 2, 1] [] (some [3, 2, 1])) 90 ≤
      valueAt (Histo.mk 1 1000 [3, 2, 1] [] (some [3, 2, 1])) 95 ∧
    valueAt (Histo.mk 1 1000 [3, 2, 1] [] (some [3, 2, 1])) 95 ≤
      valueAt (Histo.mk 1 1000 [3, 2, 1] [] (some [3, 2, 1])) 99 ∧
    valueAt (Histo.mk 1 1000 [3, 2, 1] [] (some [3, 2, 1])) 99 ≤
      valueAt (Histo.mk 1 1000 [3, 2, 1] [] (some [3, 2, 1])) 99.9 :=
  valueAt_chain (Histo.mk 1 1000 [3, 2, 1] [] (some [3, 2, 1])) [3, 2, 1] rfl

/-- C9: a quantile gauge reads `0` on any histogram that has been created and
then only recorded into or rotated (no merge yet); after a merge it reads the
smallest recorded value of the merged distribution whose cumulative count
fraction reaches `q ⁄ 100`. -/
theorem valueAt_quantile_spec (lo hi : Int) (sf : Nat) (ops : List HOp) (q : ℚ) (h : Histo) :
    valueAt (applyHOps (mkHisto lo hi sf) ops) q = 0 ∧
    (mergedOf h ≠ [] → q ≤ 100 →
      valueAt (merge h) q = (ValueAtQuantile (mergedOf h) q : ℚ) ∧
      ValueAtQuantile (mergedOf h) q ∈ mergedOf h ∧
      q * ((mergedOf h).length : ℚ) ≤
        100 * (countLE (mergedOf h) (ValueAtQuantile (mergedOf h) q) : ℚ) ∧
      (∀ u ∈ mergedOf h,
        q * ((mergedOf h).length : ℚ) ≤ 100 * (countLE (mergedOf h) u : ℚ) →
        ValueAtQuantile (mergedOf h) q ≤ u)) := by
  constructor
  · rw [valueAt.eq_def]
    rw [applyHOps_m]
    rfl
  · intro hne hq
    have hfil := filter_satB_ne_nil (mergedOf h) q hq hne
    have hmem := minD_mem _ hfil
    rcases List.mem_filter.mp hmem with ⟨hmeml, hsat⟩
    refine ⟨rfl, hmeml, ?_, ?_⟩
    · simpa only [satB, decide_eq_true_eq] using hsat
    · intro u hu hsu
      exact minD_le _ _ (List.mem_filter.mpr ⟨hu, by simpa only [satB, decide_eq_true_eq]⟩)

/-- Witness for C9: a record-only histogram reads `0` at P50, and after a
merge the quantile value is characterized on a one-element distribution. -/
theorem valueAt_quantile_spec_witness :
    valueAt (applyHOps (mkHisto 1 1000 3) [HOp.record 5]) 50 = 0 ∧
    valueAt (merge (Histo.mk 1 1000 [5] [] none)) 50 =
      (ValueAtQuantile (mergedOf (Histo.mk 1 1000 [5] [] none)) 50 : ℚ) ∧
    ValueAtQuantile (mergedOf (Histo.mk 1 1000 [5] [] none)) 50 ∈
      mergedOf (Histo.mk 1 1000 [5] [] none) ∧
    ValueAtQuantile (mergedOf (Histo.mk 1 1000 [5] [] none)) 50 ≤ 5 := by
  have hT := valueAt_quantile_spec 1 1000 3 [HOp.record 5] 50 (Histo.mk 1 1000 [5] [] none)
  have h2 := hT.2 (by decide) (by norm_num)
  refine ⟨hT.1, h2.1, h2.2.1, ?_⟩
  refine h2.2.2.2 5 (by decide) ?_
  rw [show countLE (mergedOf (Histo.mk 1 1000 [5] [] none)) 5 = 1 from rfl]
  norm_num [mergedOf]

end Metrics
